import Mathlib

/-! # PaperBoy: a shallow embedding of the digest pipeline

This file embeds the Python sources of the PaperBoy content-digest
generator in Lean 4 and proves properties of the embedded code.

* `src/main.py` — class `PaperBoy`: `fetch_feeds` (dedup + interest
  filter), `analyze` (per-item LLM analysis, bound 10), `deliver`
  (markdown / email dispatch on `delivery_mode`).
* `src/feed_fetcher.py` — class `FeedFetcher`: `fetch_all` (recency
  cutoff, per-source failure isolation, descending sort).
* `src/summarizer.py` — class `Summarizer`: `summarize` (empty-input
  short-circuit, single model call).

Python strings are `String`; `dict.get` with a default is `Option.getD`;
an exception-throwing collaborator call is a function into `Option`
(`none` = the call raised and the surrounding `except` caught it).
-/

/-! ## String helpers mirroring the Python primitives -/

/-- Python `str.lower()`, character by character. -/
def lowerString (s : String) : String := ⟨s.data.map Char.toLower⟩

/-- Python `str.strip()`: drop leading and trailing whitespace. -/
def trimString (s : String) : String :=
  ⟨((s.data.dropWhile Char.isWhitespace).reverse.dropWhile Char.isWhitespace).reverse⟩

/-- Python `s[:n]`: the first `n` characters. -/
def takeChars (n : Nat) (s : String) : String := ⟨s.data.take n⟩

/-- Tests whether the needle occurs as a contiguous run at the head of
the second list. -/
def isPrefOf : List Char → List Char → Bool
  | [], _ => true
  | _ :: _, [] => false
  | a :: as, b :: bs => a == b && isPrefOf as bs

/-- Tests whether the needle occurs contiguously anywhere in the
haystack. -/
def containsSub (needle : List Char) : List Char → Bool
  | [] => isPrefOf needle []
  | c :: rest => isPrefOf needle (c :: rest) || containsSub needle rest

/-- Python `needle in hay` on strings (substring containment). -/
def substrOf (needle hay : String) : Bool := containsSub needle.data hay.data

/-- Python `d.get(key, default)` for optional string fields. -/
def pyGetStr (o : Option String) (d : String) : String := o.getD d

/-! ## `PaperBoy.fetch_feeds` (src/main.py lines 35–71)

A raw feedparser entry is a loosely-typed record: each field the code
reads may be absent.  `Source.parse` is the result of
`feedparser.parse(source["url"])` together with the surrounding `try`:
`none` means the fetch/parse raised and the `except` swallowed it. -/

structure RawEntry where
  link : Option String
  title : Option String
  summary : Option String
  description : Option String
  published : Option String
deriving DecidableEq

structure Source where
  name : String
  parse : Option (List RawEntry)
deriving DecidableEq

structure NormalizedEntry where
  title : String
  link : String
  summary : String
  source : String
  published : String
deriving DecidableEq

/-- Models `link = entry.get("link", "")`. -/
def entryKey (e : RawEntry) : String := pyGetStr e.link ""

/-- Models `title = entry.get("title", "")`. -/
def entryTitle (e : RawEntry) : String := pyGetStr e.title ""

/-- Models `summary = entry.get("summary", "") or entry.get("description", "")`
(Python `or`: the left side wins unless it is the empty string). -/
def entrySummary (e : RawEntry) : String :=
  let s := pyGetStr e.summary ""
  if s = "" then pyGetStr e.description "" else s

/-- The keep-condition of the basic keyword filter in `fetch_feeds`:
the code skips an entry iff `interests` is nonempty and no interest is a
substring of `(title + " " + summary).lower()`.  `interests` is assumed
already lowercased (the caller maps `k.lower()` over the config list). -/
def matchesInterests (interests : List String) (e : RawEntry) : Bool :=
  let content := lowerString (entryTitle e ++ " " ++ entrySummary e)
  interests.isEmpty || interests.any (fun k => substrOf k content)

/-- The dict appended to `all_entries` for an accepted entry;
`nowIso` models `datetime.now().isoformat()`, the default for
`entry.get("published", ...)`. -/
def normalizeEntry (nowIso srcName : String) (e : RawEntry) : NormalizedEntry :=
  { title := entryTitle e
    link := entryKey e
    summary := entrySummary e
    source := srcName
    published := pyGetStr e.published nowIso }

/-- The inner `for entry in feed.entries` loop of `fetch_feeds`.
State: (`self.seen_urls`, `all_entries`).  An entry whose link is
already seen is skipped; an entry failing the interest filter is
skipped *without* marking its link seen; otherwise the link is added to
the seen set and the normalized entry appended. -/
def processEntries (nowIso srcName : String) (interests : List String) :
    List RawEntry → List String × List NormalizedEntry →
    List String × List NormalizedEntry
  | [], st => st
  | e :: rest, st =>
    if entryKey e ∈ st.1 then
      processEntries nowIso srcName interests rest st
    else if matchesInterests interests e then
      processEntries nowIso srcName interests rest
        (entryKey e :: st.1, st.2 ++ [normalizeEntry nowIso srcName e])
    else
      processEntries nowIso srcName interests rest st

/-- The outer `for source in self.config.get("sources", [])` loop.
A source whose parse raised (`parse = none`) contributes nothing and
the loop proceeds to the next source (the `except` clause). -/
def fetchFeedsAux (nowIso : String) (interests : List String) :
    List Source → List String × List NormalizedEntry →
    List String × List NormalizedEntry
  | [], st => st
  | s :: rest, st =>
    match s.parse with
    | none => fetchFeedsAux nowIso interests rest st
    | some es => fetchFeedsAux nowIso interests rest
        (processEntries nowIso s.name interests es st)

/-- Embeds `PaperBoy.fetch_feeds`: lowercase the configured interests, start
from a fresh `seen_urls` set and an empty `all_entries`, and run over
all sources.  Returns `all_entries`. -/
def fetchFeeds (nowIso : String) (interests0 : List String)
    (sources : List Source) : List NormalizedEntry :=
  (fetchFeedsAux nowIso (interests0.map lowerString) sources ([], [])).2

/-- The interest-filter stage on its own (the condition of
src/main.py lines 54–57, applied entrywise): keep an entry iff the
interest set is empty or some lowercased interest is a substring of the
lowercased title-plus-summary. -/
def interestFilterStage (interests0 : List String)
    (es : List RawEntry) : List RawEntry :=
  es.filter (matchesInterests (interests0.map lowerString))

/-! ## `PaperBoy.analyze` (src/main.py lines 73–103)

`gen` models `self.model.generate_content(prompt).text`: `none` means
the call raised and the `except` branch ran. -/

structure AnalyzedEntry where
  entry : NormalizedEntry
  analysis : Option String
deriving DecidableEq

/-- The per-item prompt f-string of `analyze`. -/
def analyzePrompt (persona : String) (item : NormalizedEntry) : String :=
  "\n            " ++ persona ++
  "\n\n            Analyze the following article/paper abstract. Provide a brief \"Key Insights\" summary (2-3 sentences) focusing on why this matters.\n\n            Title: "
  ++ item.title ++ "\n            Source: " ++ item.source ++
  "\n            Content: " ++ item.summary ++ "\n            "

/-- Embeds `PaperBoy.analyze`: take the first 10 entries
(`target_entries = entries[:10]`); for each, call the model; on success
attach the stripped response text as `analysis`, on failure attach the
fixed string `"Analysis failed."`; either way append the item to
`analyzed_entries`.  Returns `analyzed_entries`. -/
def analyze (gen : String → Option String) (persona : String)
    (entries : List NormalizedEntry) : List AnalyzedEntry :=
  (entries.take 10).map (fun item =>
    match gen (analyzePrompt persona item) with
    | some t => { entry := item, analysis := some (trimString t) }
    | none => { entry := item, analysis := some "Analysis failed." })

/-! ## `Summarizer.summarize` (src/summarizer.py lines 12–61) -/

structure SEntry where
  title : Option String
  source_name : Option String
  link : Option String
  summary : Option String
  description : Option String
deriving DecidableEq

/-- Models `entry.get('summary') or entry.get('description') or "No content
available."` — Python `or` skips `None` and the empty string. -/
def sContent (e : SEntry) : String :=
  let s := pyGetStr e.summary ""
  if s ≠ "" then s
  else
    let d := pyGetStr e.description ""
    if d ≠ "" then d else "No content available."

/-- One `--- Article i ---` block of `articles_text` (content snippet
truncated to 2000 characters). -/
def articleBlock (i : Nat) (e : SEntry) : String :=
  "\n\n--- Article " ++ toString i ++ " ---\n" ++
  "Title: " ++ pyGetStr e.title "No Title" ++ "\n" ++
  "Source: " ++ pyGetStr e.source_name "Unknown Source" ++ "\n" ++
  "Link: " ++ pyGetStr e.link "#" ++ "\n" ++
  "Content Snippet: " ++ takeChars 2000 (sContent e) ++ "...\n"

/-- The `for i, entry in enumerate(entries_to_process, 1)` loop. -/
def articlesTextFrom (i : Nat) : List SEntry → String
  | [] => ""
  | e :: rest => articleBlock i e ++ articlesTextFrom (i + 1) rest

/-- The aggregate prompt of `summarize`, over `entries[:20]`. -/
def summarizePrompt (user_name : String) (interests : List String)
    (entries : List SEntry) : String :=
  "\n        Act as a research assistant for " ++ user_name ++
  ", who is interested in: " ++ String.intercalate ", " interests ++
  ".\n\n        Here are the latest academic/tech articles from their subscribed feeds.\n        Please verify which ones are relevant to their interests.\n\n        For the relevant articles, provide a cohesive narrative summary.\n        Group them by topic if possible.\n\n        For each relevant article mentioned, make sure to include the link.\n\n        Format the output in Markdown.\n        Start with a friendly greeting to "
  ++ user_name ++ ".\n\n        Articles:\n        " ++
  articlesTextFrom 1 (entries.take 20) ++ "\n        "

/-- Embeds `Summarizer.summarize`.  The second component counts the calls made
to the language-model collaborator `gen` (`none` = the call raised; the
`except` branch returns the fixed failure string). -/
def summarize (gen : String → Option String) (entries : List SEntry)
    (user_name : String) (interests : List String) : String × Nat :=
  if entries.isEmpty then ("No new articles found today.", 0)
  else
    match gen (summarizePrompt user_name interests entries) with
    | some t => (t, 1)
    | none => ("Failed to generate summary due to an error.", 1)

/-! ## `PaperBoy.deliver` (src/main.py lines 125–199)

The observable effect of `deliver` is which delivery paths are entered
and whether they complete; the surrounding state (template availability,
file-system success, credentials, SMTP success) is the environment. -/

structure DeliverEnv where
  mdTemplateOk : Bool
  htmlTemplateOk : Bool
  fsWriteOk : Bool
  emailUser : Option String
  emailTo : Option String
  emailPassword : Option String
  smtpOk : Bool
deriving DecidableEq

structure DeliverResult where
  markdownAttempted : Bool
  markdownWritten : Bool
  emailAttempted : Bool
  emailSent : Bool
deriving DecidableEq

/-- Embeds `PaperBoy.deliver`: `mode = self.config.get("delivery_mode",
"markdown")`, then `if mode == "markdown": ... elif mode == "email":
...` — there is no further branch, so any other mode value falls
through performing no delivery.  Inside the email branch the missing
HTML template falls back to the markdown template (`mime 'plain'`), and
missing credentials return early without sending; each branch catches
its own exceptions. -/
def deliver (mode : String) (env : DeliverEnv) : DeliverResult :=
  if mode = "markdown" then
    { markdownAttempted := true
      markdownWritten := env.mdTemplateOk && env.fsWriteOk
      emailAttempted := false
      emailSent := false }
  else if mode = "email" then
    { markdownAttempted := false
      markdownWritten := false
      emailAttempted := true
      emailSent := (env.htmlTemplateOk || env.mdTemplateOk)
        && env.emailUser.isSome && env.emailTo.isSome
        && env.emailPassword.isSome && env.smtpOk }
  else
    { markdownAttempted := false
      markdownWritten := false
      emailAttempted := false
      emailSent := false }

/-! ## `FeedFetcher.fetch_all` (src/feed_fetcher.py lines 9–44)

Timestamps are seconds since the epoch (UTC) as `Int`:
`cutoff_date = datetime.now(timezone.utc) - timedelta(days=days)` and a
parsed `struct_time` both become plain integers, compared with `>=`. -/

structure FFEntry where
  published_parsed : Option Int
  updated_parsed : Option Int
  title : Option String
  link : Option String
deriving DecidableEq

structure FFSource where
  name : String
  parse : Option (List FFEntry)
deriving DecidableEq

/-- An entry as appended by `fetch_all`: the raw entry enriched with
`source_name` and `published_dt`. -/
structure FFOut where
  entry : FFEntry
  source_name : String
  published_dt : Int
deriving DecidableEq

/-- Models `entry.get('published_parsed') or entry.get('updated_parsed')`. -/
def ffPublished (e : FFEntry) : Option Int :=
  match e.published_parsed with
  | some t => some t
  | none => e.updated_parsed

/-- Models `cutoff_date = now(UTC) - timedelta(days=days)`, in seconds. -/
def ffCutoff (now days : Int) : Int := now - days * 86400

/-- The per-source body of `fetch_all`: a raised fetch/parse
(`parse = none`) is caught and contributes nothing; otherwise each
entry with a derivable timestamp `t` satisfying `t ≥ cutoff` is kept,
enriched with the source name and `published_dt = t`; entries with no
derivable timestamp are dropped. -/
def collectSource (cutoff : Int) (s : FFSource) : List FFOut :=
  match s.parse with
  | none => []
  | some es =>
    es.filterMap (fun e =>
      match ffPublished e with
      | some t => if cutoff ≤ t then some ⟨e, s.name, t⟩ else none
      | none => none)

/-- The descending-time order used by
`all_entries.sort(key=lambda x: x['published_dt'], reverse=True)`. -/
def ffLE (a b : FFOut) : Prop := b.published_dt ≤ a.published_dt

instance : DecidableRel ffLE := fun a b =>
  inferInstanceAs (Decidable (b.published_dt ≤ a.published_dt))

instance : IsTotal FFOut ffLE :=
  ⟨fun a b => le_total b.published_dt a.published_dt⟩

instance : IsTrans FFOut ffLE :=
  ⟨fun _ _ _ h1 h2 => le_trans h2 h1⟩

/-- Embeds `FeedFetcher.fetch_all`: aggregate all sources in order, then sort
by `published_dt` descending. -/
def fetch_all (now days : Int) (sources : List FFSource) : List FFOut :=
  List.insertionSort ffLE
    ((sources.map (collectSource (ffCutoff now days))).flatten)

/-! ## Spec-side description of the dedup/filter interaction

`specFirstPassing` restates, in the spec's terms, which single raw
entry with a given link survives `fetch_feeds`: the first one (in
source-iteration order over the entries of sources that parsed) whose
key equals the link and which passes the interest filter.  It is
deliberately defined from the spec's words, to be compared with the
source-defined `fetchFeeds`. -/

def flatRaws (sources : List Source) : List (String × RawEntry) :=
  sources.flatMap (fun s => (s.parse.getD []).map (fun e => (s.name, e)))

def specFirstPassing (interests : List String) (L : String) :
    List (String × RawEntry) → Option (String × RawEntry)
  | [] => none
  | (n, e) :: rest =>
    if entryKey e = L ∧ matchesInterests interests e then some (n, e)
    else specFirstPassing interests L rest

/-! ## Concrete inputs used by counterexamples and witnesses -/

def cexE1 : RawEntry :=
  { link := some "L", title := some "beta", summary := some "",
    description := none, published := none }

def cexE2 : RawEntry :=
  { link := some "L", title := some "Alpha one", summary := none,
    description := none, published := none }

def cexE3 : RawEntry :=
  { link := some "M", title := some "beta", summary := none,
    description := none, published := none }

def cexE4 : RawEntry :=
  { link := some "M", title := some "gamma", summary := none,
    description := none, published := none }

def cexSrcA : Source := { name := "A", parse := some [cexE1, cexE3] }

def cexSrcB : Source := { name := "B", parse := some [cexE2, cexE4] }

/-- A minimal normalized entry distinguished by its string tag. -/
def cexNE (s : String) : NormalizedEntry :=
  { title := s, link := s, summary := "", source := "src", published := "T" }

def cexEntries11 : List NormalizedEntry :=
  ["e01", "e02", "e03", "e04", "e05", "e06",
   "e07", "e08", "e09", "e10", "e11"].map cexNE

/-! ## Helper lemmas -/

/-- The Analyzer's output is, entrywise, exactly the first ten input
entries: the per-item `match` never drops or reorders an item. -/
theorem analyze_map_entry (gen : String → Option String) (persona : String)
    (es : List NormalizedEntry) :
    (analyze gen persona es).map AnalyzedEntry.entry = es.take 10 := by
  unfold analyze
  generalize es.take 10 = l
  induction l with
  | nil => rfl
  | cons a t ih =>
    simp only [List.map_cons]
    cases gen (analyzePrompt persona a) <;> simp [ih]

/-- Everything a member of `collectSource` satisfies: its timestamp is
at or after the cutoff and is the one derived from the entry. -/
theorem collectSource_mem {c : Int} {s : FFSource} {o : FFOut}
    (h : o ∈ collectSource c s) :
    c ≤ o.published_dt ∧ ffPublished o.entry = some o.published_dt := by
  unfold collectSource at h
  cases hp : s.parse with
  | none => rw [hp] at h; simp at h
  | some es =>
    rw [hp] at h
    rw [List.mem_filterMap] at h
    obtain ⟨a, _, hfa⟩ := h
    cases hpub : ffPublished a with
    | none => rw [hpub] at hfa; simp at hfa
    | some t =>
      rw [hpub] at hfa
      by_cases hc : c ≤ t
      · simp only [hc, if_true, Option.some.injEq] at hfa
        subst hfa
        exact ⟨hc, hpub⟩
      · simp [hc] at hfa

/-- Conversely, a parsed entry with a derivable timestamp at or after
the cutoff is collected. -/
theorem collectSource_mem_of {c t : Int} {s : FFSource} {es : List FFEntry}
    {e : FFEntry} (hp : s.parse = some es) (he : e ∈ es)
    (hpub : ffPublished e = some t) (hc : c ≤ t) :
    (⟨e, s.name, t⟩ : FFOut) ∈ collectSource c s := by
  unfold collectSource
  rw [hp, List.mem_filterMap]
  exact ⟨e, he, by rw [hpub]; simp [hc]⟩

/-- Membership in `fetch_all` is membership in some source's collected
entries (the sort is a permutation). -/
theorem mem_fetch_all {o : FFOut} {now days : Int} {sources : List FFSource} :
    o ∈ fetch_all now days sources ↔
      ∃ s ∈ sources, o ∈ collectSource (ffCutoff now days) s := by
  unfold fetch_all
  rw [(List.perm_insertionSort ffLE _).mem_iff]
  simp only [List.mem_flatten, List.mem_map]
  constructor
  · rintro ⟨l, ⟨s, hs, rfl⟩, hol⟩
    exact ⟨s, hs, hol⟩
  · rintro ⟨s, hs, ho⟩
    exact ⟨collectSource (ffCutoff now days) s, ⟨s, hs, rfl⟩, ho⟩

/-- The source loop of `fetch_feeds` splits over list append. -/
theorem fetchFeedsAux_append (nowIso : String) (ints : List String)
    (xs ys : List Source) (st : List String × List NormalizedEntry) :
    fetchFeedsAux nowIso ints (xs ++ ys) st =
      fetchFeedsAux nowIso ints ys (fetchFeedsAux nowIso ints xs st) := by
  induction xs generalizing st with
  | nil => rfl
  | cons s rest ih =>
    cases hp : s.parse with
    | none => simp [fetchFeedsAux, hp, ih]
    | some es => simp [fetchFeedsAux, hp, ih]

/-- Invariant of one source's entry loop, for a fixed link `L`: the
entries with link `L` that the loop appends are exactly the first
filter-passing `L`-entry, and only when `L` was not already seen; and
`L` is seen afterwards iff it was seen before or such an entry exists. -/
theorem processEntries_link (nowIso srcName : String) (ints : List String)
    (L : String) (es : List RawEntry) :
    ∀ st : List String × List NormalizedEntry,
      ((processEntries nowIso srcName ints es st).2.filter (fun o => o.link == L) =
        st.2.filter (fun o => o.link == L) ++
          (if L ∈ st.1 then []
           else
             match specFirstPassing ints L (es.map (fun e => (srcName, e))) with
             | none => []
             | some p => [normalizeEntry nowIso p.1 p.2])) ∧
      ((L ∈ (processEntries nowIso srcName ints es st).1) ↔
        (L ∈ st.1 ∨
          (specFirstPassing ints L (es.map (fun e => (srcName, e)))).isSome = true)) := by
  induction es with
  | nil =>
    intro st
    simp [processEntries, specFirstPassing]
  | cons e rest ih =>
    intro st
    by_cases hseen : entryKey e ∈ st.1
    · -- seen link: the entry is skipped, and if it is an L-entry then L
      -- is already in the seen set
      have hstep : processEntries nowIso srcName ints (e :: rest) st =
          processEntries nowIso srcName ints rest st := by
        simp [processEntries, hseen]
      obtain ⟨ih1, ih2⟩ := ih st
      by_cases hk : entryKey e = L
      · have hseenL : L ∈ st.1 := hk ▸ hseen
        constructor
        · rw [hstep, ih1, if_pos hseenL]
          cases hmm : specFirstPassing ints L
              ((e :: rest).map (fun e => (srcName, e))) <;> simp [if_pos hseenL]
        · rw [hstep]
          constructor
          · intro _; exact Or.inl hseenL
          · intro _; exact ih2.mpr (Or.inl hseenL)
      · have hspec : specFirstPassing ints L
            ((e :: rest).map (fun e => (srcName, e))) =
            specFirstPassing ints L (rest.map (fun e => (srcName, e))) := by
          simp [specFirstPassing, hk]
        rw [hstep, hspec]
        exact ⟨ih1, ih2⟩
    · cases hm : matchesInterests ints e with
      | false =>
        have hstep : processEntries nowIso srcName ints (e :: rest) st =
            processEntries nowIso srcName ints rest st := by
          simp [processEntries, hseen, hm]
        have hspec : specFirstPassing ints L
            ((e :: rest).map (fun e => (srcName, e))) =
            specFirstPassing ints L (rest.map (fun e => (srcName, e))) := by
          simp [specFirstPassing, hm]
        obtain ⟨ih1, ih2⟩ := ih st
        rw [hstep, hspec]
        exact ⟨ih1, ih2⟩
      | true =>
        have hstep : processEntries nowIso srcName ints (e :: rest) st =
            processEntries nowIso srcName ints rest
              (entryKey e :: st.1, st.2 ++ [normalizeEntry nowIso srcName e]) := by
          simp [processEntries, hseen, hm]
        obtain ⟨ih1, ih2⟩ := ih
          (entryKey e :: st.1, st.2 ++ [normalizeEntry nowIso srcName e])
        by_cases hk : entryKey e = L
        · have hseenL : L ∉ st.1 := fun h => hseen (hk ▸ h)
          have hspec : specFirstPassing ints L
              ((e :: rest).map (fun e => (srcName, e))) = some (srcName, e) := by
            simp [specFirstPassing, hk, hm]
          constructor
          · rw [hstep, ih1, hspec, if_neg hseenL]
            have hmem : L ∈ entryKey e :: st.1 := by
              rw [hk]; exact List.mem_cons_self L st.1
            rw [if_pos hmem, List.filter_append]
            simp [normalizeEntry, hk]
          · rw [hstep, ih2, hspec]
            simp [hk]
        · have hmem : (L ∈ entryKey e :: st.1) ↔ L ∈ st.1 := by
            simp [List.mem_cons]
            intro h
            exact absurd h.symm hk
          have hspec : specFirstPassing ints L
              ((e :: rest).map (fun e => (srcName, e))) =
              specFirstPassing ints L (rest.map (fun e => (srcName, e))) := by
            simp [specFirstPassing, hk]
          have hfilter : (st.2 ++ [normalizeEntry nowIso srcName e]).filter
              (fun o => o.link == L) = st.2.filter (fun o => o.link == L) := by
            rw [List.filter_append]
            simp [normalizeEntry, hk]
          constructor
          · rw [hstep, ih1, hspec, hfilter]
            by_cases hL : L ∈ st.1
            · rw [if_pos hL, if_pos (hmem.mpr hL)]
            · rw [if_neg hL, if_neg (fun h => hL (hmem.mp h))]
          · rw [hstep, ih2, hspec, hmem]

/-- The first passing entry over an append is the first of the left
part, or else the first of the right part. -/
theorem specFirstPassing_append (ints : List String) (L : String)
    (xs ys : List (String × RawEntry)) :
    specFirstPassing ints L (xs ++ ys) =
      match specFirstPassing ints L xs with
      | some p => some p
      | none => specFirstPassing ints L ys := by
  induction xs with
  | nil => simp [specFirstPassing]
  | cons a t ih =>
    obtain ⟨n, e⟩ := a
    by_cases h : entryKey e = L ∧ matchesInterests ints e
    · simp [specFirstPassing, h]
    · simp only [List.cons_append, specFirstPassing, if_neg h]
      exact ih

/-- The `processEntries_link` invariant lifted over the source loop. -/
theorem fetchFeedsAux_link (nowIso : String) (ints : List String) (L : String)
    (srcs : List Source) :
    ∀ st : List String × List NormalizedEntry,
      ((fetchFeedsAux nowIso ints srcs st).2.filter (fun o => o.link == L) =
        st.2.filter (fun o => o.link == L) ++
          (if L ∈ st.1 then []
           else
             match specFirstPassing ints L (flatRaws srcs) with
             | none => []
             | some p => [normalizeEntry nowIso p.1 p.2])) ∧
      ((L ∈ (fetchFeedsAux nowIso ints srcs st).1) ↔
        (L ∈ st.1 ∨ (specFirstPassing ints L (flatRaws srcs)).isSome = true)) := by
  induction srcs with
  | nil =>
    intro st
    simp [fetchFeedsAux, flatRaws, specFirstPassing]
  | cons s rest ih =>
    intro st
    have hflat : flatRaws (s :: rest) =
        (s.parse.getD []).map (fun e => (s.name, e)) ++ flatRaws rest := by
      simp [flatRaws]
    cases hp : s.parse with
    | none =>
      have hstep : fetchFeedsAux nowIso ints (s :: rest) st =
          fetchFeedsAux nowIso ints rest st := by
        simp [fetchFeedsAux, hp]
      obtain ⟨ih1, ih2⟩ := ih st
      rw [hstep, hflat, hp]
      simpa using ⟨ih1, ih2⟩
    | some es =>
      have hstep : fetchFeedsAux nowIso ints (s :: rest) st =
          fetchFeedsAux nowIso ints rest
            (processEntries nowIso s.name ints es st) := by
        simp [fetchFeedsAux, hp]
      obtain ⟨pe1, pe2⟩ := processEntries_link nowIso s.name ints L es st
      obtain ⟨ih1, ih2⟩ := ih (processEntries nowIso s.name ints es st)
      rw [hstep, hflat, hp, specFirstPassing_append]
      simp only [Option.getD_some]
      constructor
      · rw [ih1, pe1]
        by_cases hL : L ∈ st.1
        · have hL2 : L ∈ (processEntries nowIso s.name ints es st).1 :=
            pe2.mpr (Or.inl hL)
          rw [if_pos hL, if_pos hL2, if_pos hL]
          simp
        · rw [if_neg hL]
          cases hsp : specFirstPassing ints L (es.map (fun e => (s.name, e))) with
          | some p =>
            have hL2 : L ∈ (processEntries nowIso s.name ints es st).1 :=
              pe2.mpr (Or.inr (by rw [hsp]; rfl))
            rw [if_pos hL2]
            simp only [List.append_nil]
            rw [if_neg hL]
          | none =>
            have hL2 : L ∉ (processEntries nowIso s.name ints es st).1 := by
              intro h
              rcases pe2.mp h with h1 | h2
              · exact hL h1
              · rw [hsp] at h2; exact Bool.noConfusion h2
            rw [if_neg hL2]
            simp only [List.append_nil, List.append_assoc]
            rw [if_neg hL]
      · rw [ih2, pe2]
        cases hsp : specFirstPassing ints L (es.map (fun e => (s.name, e))) with
        | some p => simp
        | none => simp

/-- Characterization of a run of `fetch_feeds` at a fixed link `L`: the
output entries carrying link `L` are exactly the normalization of the
first raw entry with that key, in source-iteration order, that passes
the interest filter — or nothing, when no such entry exists. -/
theorem fetchFeeds_filter_link (nowIso : String) (interests0 : List String)
    (sources : List Source) (L : String) :
    (fetchFeeds nowIso interests0 sources).filter (fun o => o.link == L) =
      match specFirstPassing (interests0.map lowerString) L (flatRaws sources) with
      | none => []
      | some p => [normalizeEntry nowIso p.1 p.2] := by
  have h := (fetchFeedsAux_link nowIso (interests0.map lowerString) L sources
    ([], [])).1
  simpa [fetchFeeds] using h

/-! ## Claim theorems -/

/-- Claim C1, counterexample: with eleven distinct input entries and an
always-succeeding model, the eleventh entry is not present in the
Analyzer's output at all — it is not passed through without an
`analysis` field, contrary to the claim. -/
theorem analyze_beyond_bound_cex :
    cexEntries11.length = 11 ∧
    cexEntries11.getLast? = some (cexNE "e11") ∧
    ((analyze (fun _ => some "ok") "p" cexEntries11).map
        AnalyzedEntry.entry).contains (cexNE "e11") = false := by
  decide

/-- Claim C1, amended: the Analyzer processes at most the first
`K = 10` entries, and entries beyond the first `K` are dropped: the
output consists exactly of the first `min(10, n)` input entries, never
exceeds ten items, and every output entry carries an `analysis` field
(`some` in the embedding, whether from the model or the fallback). -/
theorem analyze_bound_and_drop (gen : String → Option String) (persona : String)
    (es : List NormalizedEntry) :
    (analyze gen persona es).map AnalyzedEntry.entry = es.take 10 ∧
    (analyze gen persona es).length ≤ 10 ∧
    (analyze gen persona es).all (fun a => a.analysis.isSome) = true := by
  refine ⟨analyze_map_entry gen persona es, ?_, ?_⟩
  · have h := congrArg List.length (analyze_map_entry gen persona es)
    rw [List.length_map, List.length_take] at h
    rw [h]
    exact min_le_left _ _
  · unfold analyze
    generalize es.take 10 = l
    induction l with
    | nil => rfl
    | cons a t ih =>
      simp only [List.map_cons, List.all_cons]
      cases gen (analyzePrompt persona a) <;> simp [ih]

/-- Claim C2: with `delivery_mode = "both"` the `if/elif` dispatch of
`deliver` matches neither branch, so neither the markdown delivery nor
the email delivery is even attempted — whatever the environment. -/
theorem deliver_both_no_delivery (env : DeliverEnv) :
    deliver "both" env =
      { markdownAttempted := false, markdownWritten := false,
        emailAttempted := false, emailSent := false } := rfl

/-- Claim C3: every entry produced by `fetch_all` with window `days`
carries a publication time at or after `now - days` (so strictly older
entries are excluded), and conversely any parsed entry with a derivable
publication time at or after the cutoff — in particular exactly at the
cutoff, the inclusive boundary — appears in the output. -/
theorem fetch_all_recency (now days : Int) (sources : List FFSource) :
    (∀ o ∈ fetch_all now days sources,
        ffCutoff now days ≤ o.published_dt ∧
        ffPublished o.entry = some o.published_dt) ∧
    (∀ s ∈ sources, ∀ es : List FFEntry, s.parse = some es →
        ∀ e ∈ es, ∀ t : Int, ffPublished e = some t →
        ffCutoff now days ≤ t →
        (⟨e, s.name, t⟩ : FFOut) ∈ fetch_all now days sources) := by
  constructor
  · intro o ho
    obtain ⟨s, _, hcs⟩ := mem_fetch_all.mp ho
    exact collectSource_mem hcs
  · intro s hs es hp e he t hpub hc
    exact mem_fetch_all.mpr ⟨s, hs, collectSource_mem_of hp he hpub hc⟩

/-- Witness for `fetch_all_recency`: an entry published exactly at the
cutoff `1000000 - 1·86400 = 913600` is included in the output. -/
theorem fetch_all_recency_witness :
    (⟨⟨some 913600, none, none, none⟩, "s", 913600⟩ : FFOut) ∈
      fetch_all 1000000 1 [⟨"s", some [⟨some 913600, none, none, none⟩]⟩] :=
  (fetch_all_recency 1000000 1
      [⟨"s", some [⟨some 913600, none, none, none⟩]⟩]).2
    ⟨"s", some [⟨some 913600, none, none, none⟩]⟩ (by simp)
    [⟨some 913600, none, none, none⟩] rfl
    ⟨some 913600, none, none, none⟩ (by simp) 913600 rfl (by decide)

/-- Claim C4: the output of `fetch_all` is sorted in descending order
of publication time — every pair of entries (in particular every
adjacent pair) has the earlier-positioned one's `published_dt` greater
than or equal to the later one's. -/
theorem fetch_all_sorted_descending (now days : Int) (sources : List FFSource) :
    (fetch_all now days sources).Pairwise
      (fun a b => b.published_dt ≤ a.published_dt) ∧
    (fetch_all now days sources).Chain'
      (fun a b => b.published_dt ≤ a.published_dt) := by
  have h := List.sorted_insertionSort ffLE
    ((sources.map (collectSource (ffCutoff now days))).flatten)
  exact ⟨h, h.chain'⟩

/-- Claim C5, counterexample: with interest list `["Alpha"]`, source A
carrying entries with links "L" (title "beta") and "M" (title "beta"),
and source B carrying links "L" (title "Alpha one") and "M" (title
"gamma"): the two "M"-entries both fail the interest filter, so *zero*
entries with link "M" appear (not "exactly one"); and the surviving
"L"-entry is the *second* encountered (source B's, title "Alpha one"),
not the first encountered, because the first failed the filter without
marking "L" seen. -/
theorem fetch_feeds_dedup_cex :
    fetchFeeds "T" ["Alpha"] [cexSrcA, cexSrcB] =
      [{ title := "Alpha one", link := "L", summary := "",
         source := "B", published := "T" }] ∧
    (fetchFeeds "T" ["Alpha"] [cexSrcA, cexSrcB]).filter
        (fun o => o.link == "M") = [] ∧
    flatRaws [cexSrcA, cexSrcB] =
      [("A", cexE1), ("A", cexE3), ("B", cexE2), ("B", cexE4)] ∧
    cexE1.title = some "beta" := by
  decide

/-- Claim C5, amended: for every link value, at most one entry with
that link appears in the `fetch_feeds` output, namely the first raw
entry encountered in source-iteration order *that passes the interest
filter*; all later entries with that link are dropped silently. -/
theorem fetch_feeds_dedup_first_passing (nowIso : String)
    (interests0 : List String) (sources : List Source) (L : String) :
    ((fetchFeeds nowIso interests0 sources).filter (fun o => o.link == L) =
      match specFirstPassing (interests0.map lowerString) L (flatRaws sources) with
      | none => []
      | some p => [normalizeEntry nowIso p.1 p.2]) ∧
    ((fetchFeeds nowIso interests0 sources).filter
        (fun o => o.link == L)).length ≤ 1 := by
  refine ⟨fetchFeeds_filter_link nowIso interests0 sources L, ?_⟩
  rw [fetchFeeds_filter_link]
  cases specFirstPassing (interests0.map lowerString) L (flatRaws sources) with
  | none => simp
  | some p => simp

/-- Claim C6: a source whose retrieval/parse raises contributes zero
entries and does not abort the run — the output of `fetch_feeds` over
sources including the failing one equals the output with the failing
source removed, so every qualifying entry of every other source is
retained. -/
theorem fetch_feeds_failed_source (nowIso : String) (interests0 : List String)
    (pre post : List Source) (s : Source) (h : s.parse = none) :
    fetchFeeds nowIso interests0 (pre ++ s :: post) =
      fetchFeeds nowIso interests0 (pre ++ post) := by
  unfold fetchFeeds
  rw [fetchFeedsAux_append nowIso _ pre (s :: post),
      fetchFeedsAux_append nowIso _ pre post]
  have hstep : ∀ st, fetchFeedsAux nowIso (interests0.map lowerString)
      (s :: post) st = fetchFeedsAux nowIso (interests0.map lowerString) post st := by
    intro st
    simp [fetchFeedsAux, h]
  rw [hstep]

/-- Witness for `fetch_feeds_failed_source`: dropping a concrete failed
source leaves the run over the remaining source unchanged. -/
theorem fetch_feeds_failed_source_witness :
    fetchFeeds "T" []
        [⟨"good", some [⟨some "l", some "t", none, none, none⟩]⟩, ⟨"bad", none⟩] =
      fetchFeeds "T" [] [⟨"good", some [⟨some "l", some "t", none, none, none⟩]⟩] :=
  fetch_feeds_failed_source "T" []
    [⟨"good", some [⟨some "l", some "t", none, none, none⟩]⟩] [] ⟨"bad", none⟩ rfl

/-- Claim C7: when the model call fails on the `i`-th entry within the
Analyzer's bound, that entry is not removed (it is still at position
`i`, carrying the fixed fallback string `"Analysis failed."` as its
`analysis`) and all other entries are still processed in order (the
output is still, entrywise, the first ten inputs); no exception
escapes, `analyze` being a total function. -/
theorem analyze_item_failure_isolated (gen : String → Option String)
    (persona : String) (es : List NormalizedEntry) (i : Nat)
    (h : i < (es.take 10).length)
    (hfail : gen (analyzePrompt persona ((es.take 10).get ⟨i, h⟩)) = none) :
    (analyze gen persona es).map AnalyzedEntry.entry = es.take 10 ∧
    (analyze gen persona es)[i]? =
      some { entry := (es.take 10).get ⟨i, h⟩,
             analysis := some "Analysis failed." } := by
  refine ⟨analyze_map_entry gen persona es, ?_⟩
  have hx : (es.take 10).get ⟨i, h⟩ = (es.take 10)[i] := List.get_eq_getElem _ _
  rw [hx] at hfail
  unfold analyze
  rw [List.getElem?_map, List.getElem?_eq_getElem h]
  simp only [Option.map_some']
  rw [hfail, hx]

/-- Witness for `analyze_item_failure_isolated`: with a model that
always fails, the first of two entries receives the fallback text and
both entries survive. -/
theorem analyze_item_failure_isolated_witness :
    (analyze (fun _ => none) "p" [cexNE "w1", cexNE "w2"]).map
        AnalyzedEntry.entry = [cexNE "w1", cexNE "w2"].take 10 ∧
    (analyze (fun _ => none) "p" [cexNE "w1", cexNE "w2"])[0]? =
      some { entry := ([cexNE "w1", cexNE "w2"].take 10).get ⟨0, by decide⟩,
             analysis := some "Analysis failed." } :=
  analyze_item_failure_isolated (fun _ => none) "p" [cexNE "w1", cexNE "w2"] 0
    (by decide) rfl

/-- Claim C8: on the empty entry sequence the Summarizer returns the
fixed "nothing found" message and performs zero calls to the
language-model collaborator. -/
theorem summarize_empty_input (gen : String → Option String)
    (user_name : String) (interests : List String) :
    summarize gen [] user_name interests = ("No new articles found today.", 0) := rfl

/-- Claim C9: with an empty interest keyword set the interest-filter
stage is the identity: it returns the same entries, in the same order,
dropping and mutating nothing. -/
theorem interest_filter_empty_id (es : List RawEntry) :
    interestFilterStage [] es = es := by
  unfold interestFilterStage
  simp [matchesInterests]

/-- Claim C10: a raw entry lacking a `link` field gets the empty string
as its deduplication key, and at most one entry whose key is the empty
string ever appears in a `fetch_feeds` output — every later link-less
entry is dropped as a duplicate of the empty string. -/
theorem fetch_feeds_linkless_key (nowIso : String) (interests0 : List String)
    (sources : List Source) :
    (∀ e : RawEntry, e.link = none → entryKey e = "") ∧
    ((fetchFeeds nowIso interests0 sources).filter
        (fun o => o.link == "")).length ≤ 1 := by
  constructor
  · intro e h
    simp [entryKey, pyGetStr, h]
  · rw [fetchFeeds_filter_link]
    cases specFirstPassing (interests0.map lowerString) "" (flatRaws sources) with
    | none => simp
    | some p => simp

/-- Witness for `fetch_feeds_linkless_key`, at a fully-absent raw entry
and an empty run. -/
theorem fetch_feeds_linkless_key_witness :
    entryKey ⟨none, none, none, none, none⟩ = "" ∧
    ((fetchFeeds "T" [] []).filter (fun o => o.link == "")).length ≤ 1 :=
  ⟨(fetch_feeds_linkless_key "T" [] []).1 ⟨none, none, none, none, none⟩ rfl,
    (fetch_feeds_linkless_key "T" [] []).2⟩
